import Mathlib

/-!
Verification development for the go-veap repository: a shallow embedding of
the protocol dispatch and encoding layer (package `veap`, `encoding`,
`server`, `client`) together with proofs about the embedded operations.

Conventions of the embedding:
* Go `time.Time` values are modelled as `Int` nanoseconds since the Unix
  epoch (`Time.UnixNano`).
* Go `int64` arithmetic never overflows in the modelled code paths, so plain
  `Int` is used; Go's `/` on integers truncates toward zero and is rendered
  as `Int.tdiv`, `time.Time.Truncate` rounds toward minus infinity and is
  rendered as `Int.fdiv`.
* Go `error` results are `Option Err` (a `nil` error is `none`); functions
  returning `(T, error)` where the error excludes the value use `Except`.
* JSON payload values (`interface{}` decoded by `encoding/json`) are the
  inductive `Json`; the `encoding/json` parser and printer themselves are
  external to the repository and appear as explicit function parameters
  (oracles) of the embedded functions that use them.
* Go strings that undergo path manipulation are modelled as `List Char`
  (named `Pth`); strings used only as opaque data stay `String`.
-/

namespace Veap

/-- JSON-representable values, the model of Go `interface{}` payloads. -/
inductive Json where
  | null : Json
  | bool (b : Bool) : Json
  | num (n : Int) : Json
  | str (s : String) : Json
  | arr (elems : List Json) : Json
  | obj (fields : List (String × Json)) : Json

/-- A process value: `veap.PV` from service.go (time as UnixNano `Int`). -/
structure PV where
  time : Int
  value : Json
  state : Int

/-- A VEAP service error: the `veap.Error` interface carries a code and a
message (`Code()` and `Error()`). -/
structure Err where
  code : Int
  msg : String
deriving DecidableEq

/-- Constructor mirroring `veap.NewErrorf` (the formatted message is passed
already rendered). -/
def mkErr (code : Int) (msg : String) : Err := ⟨code, msg⟩

/-- Attribute container `veap.AttrValues` (a JSON object's worth of named
values; the map is modelled as an association list). -/
abbrev AttrValues := List (String × Json)

/-- Paths and path patterns, Go strings under path manipulation. -/
abbrev Pth := List Char

/-- A link between VEAP objects: `veap.Link` from service.go. -/
structure Link where
  role : String
  target : Pth
  title : String

/-- Parameters for a single write inside `ExgData`: `veap.WritePVParam`. -/
structure WritePVParam where
  path : String
  pv : PV

/-- Result of a single read inside `ExgData`: `veap.ReadPVResult`. -/
structure ReadPVResult where
  pv : PV
  error : Option Err

/-- The PV part of the backend `veap.Service` contract, with an explicit
state `σ` threaded through the calls so that the order of invocations is
observable in the embedding. -/
structure SvcPV (σ : Type) where
  writePV : σ → String → PV → σ × Option Err
  readPV : σ → String → σ × (PV × Option Err)

/-- The write loop of `BasicMetaService.ExgData`: one `WritePV` call per
parameter, in slice order, collecting the per-write errors positionally. -/
def runWrites (svc : SvcPV σ) : σ → List WritePVParam → σ × List (Option Err)
  | s, [] => (s, [])
  | s, w :: ws =>
    let r := svc.writePV s w.path w.pv
    let rest := runWrites svc r.1 ws
    (rest.1, r.2 :: rest.2)

/-- The read loop of `BasicMetaService.ExgData`: one `ReadPV` call per path,
in slice order, collecting `ReadPVResult`s positionally. -/
def runReads (svc : SvcPV σ) : σ → List String → σ × List ReadPVResult
  | s, [] => (s, [])
  | s, p :: ps =>
    let r := svc.readPV s p
    let rest := runReads svc r.1 ps
    (rest.1, ⟨r.2.1, r.2.2⟩ :: rest.2)

/-- `BasicMetaService.ExgData` (part_000): first all writes in order, then
all reads in order, and a `nil` service error. -/
def exgData (svc : SvcPV σ) (s : σ) (writePVs : List WritePVParam)
    (readPaths : List String) :
    σ × List (Option Err) × List ReadPVResult × Option Err :=
  let w := runWrites svc s writePVs
  let r := runReads svc w.1 readPaths
  (r.1, w.2, r.2, none)

/-- Observable backend events, used to state the invocation order of
`ExgData`. -/
inductive SvcEvent where
  | write (path : String) (pv : PV) : SvcEvent
  | read (path : String) : SvcEvent

/-- Instrumentation: the same backend, with every invocation appended to an
event trace carried in the state. -/
def traced (svc : SvcPV σ) : SvcPV (σ × List SvcEvent) where
  writePV := fun s p pv =>
    let r := svc.writePV s.1 p pv
    ((r.1, s.2 ++ [SvcEvent.write p pv]), r.2)
  readPV := fun s p =>
    let r := svc.readPV s.1 p
    ((r.1, s.2 ++ [SvcEvent.read p]), r.2)

theorem runWrites_traced (svc : SvcPV σ) (s : σ) (tr : List SvcEvent)
    (ws : List WritePVParam) :
    runWrites (traced svc) (s, tr) ws =
      (((runWrites svc s ws).1,
        tr ++ ws.map (fun w => SvcEvent.write w.path w.pv)),
       (runWrites svc s ws).2) := by
  induction ws generalizing s tr with
  | nil => simp [runWrites]
  | cons w ws ih =>
    have h1 : (traced svc).writePV (s, tr) w.path w.pv =
        (((svc.writePV s w.path w.pv).1, tr ++ [SvcEvent.write w.path w.pv]),
         (svc.writePV s w.path w.pv).2) := rfl
    simp only [runWrites, h1]
    rw [ih]
    simp [List.append_assoc]

theorem runReads_traced (svc : SvcPV σ) (s : σ) (tr : List SvcEvent)
    (ps : List String) :
    runReads (traced svc) (s, tr) ps =
      (((runReads svc s ps).1, tr ++ ps.map SvcEvent.read),
       (runReads svc s ps).2) := by
  induction ps generalizing s tr with
  | nil => simp [runReads]
  | cons p ps ih =>
    have h1 : (traced svc).readPV (s, tr) p =
        (((svc.readPV s p).1, tr ++ [SvcEvent.read p]), (svc.readPV s p).2) := rfl
    simp only [runReads, h1]
    rw [ih]
    simp [List.append_assoc]

theorem runWrites_length (svc : SvcPV σ) (s : σ) (ws : List WritePVParam) :
    (runWrites svc s ws).2.length = ws.length := by
  induction ws generalizing s with
  | nil => simp [runWrites]
  | cons w ws ih => simp [runWrites, ih]

theorem runReads_length (svc : SvcPV σ) (s : σ) (ps : List String) :
    (runReads svc s ps).2.length = ps.length := by
  induction ps generalizing s with
  | nil => simp [runReads]
  | cons p ps ih => simp [runReads, ih]

theorem runWrites_getElem (svc : SvcPV σ) (s : σ) (ws : List WritePVParam)
    (i : Nat) (hi : i < ws.length) :
    (runWrites svc s ws).2.get ⟨i, by rw [runWrites_length]; exact hi⟩ =
      (svc.writePV (runWrites svc s (ws.take i)).1 ws[i].path ws[i].pv).2 := by
  induction ws generalizing s i with
  | nil => exact absurd hi (by simp)
  | cons w ws ih =>
    cases i with
    | zero => simp [runWrites]
    | succ j =>
      have hj : j < ws.length := by simpa using hi
      simpa [runWrites] using ih (svc.writePV s w.path w.pv).1 j hj

theorem runReads_getElem (svc : SvcPV σ) (s : σ) (ps : List String)
    (j : Nat) (hj : j < ps.length) :
    (runReads svc s ps).2.get ⟨j, by rw [runReads_length]; exact hj⟩ =
      ⟨(svc.readPV (runReads svc s (ps.take j)).1 ps[j]).2.1,
       (svc.readPV (runReads svc s (ps.take j)).1 ps[j]).2.2⟩ := by
  induction ps generalizing s j with
  | nil => exact absurd hj (by simp)
  | cons p ps ih =>
    cases j with
    | zero => simp [runReads]
    | succ k =>
      have hk : k < ps.length := by simpa using hj
      simpa [runReads] using ih (svc.readPV s p).1 k hk

theorem runWrites_getElem? (svc : SvcPV σ) (s : σ) (ws : List WritePVParam)
    (i : Nat) (hi : i < ws.length) :
    (runWrites svc s ws).2[i]? =
      some (svc.writePV (runWrites svc s (ws.take i)).1 ws[i].path ws[i].pv).2 := by
  have hlen : i < (runWrites svc s ws).2.length := by rw [runWrites_length]; exact hi
  rw [List.getElem?_eq_getElem hlen]
  exact congrArg some (runWrites_getElem svc s ws i hi)

theorem runReads_getElem? (svc : SvcPV σ) (s : σ) (ps : List String)
    (j : Nat) (hj : j < ps.length) :
    (runReads svc s ps).2[j]? =
      some ⟨(svc.readPV (runReads svc s (ps.take j)).1 ps[j]).2.1,
            (svc.readPV (runReads svc s (ps.take j)).1 ps[j]).2.2⟩ := by
  have hlen : j < (runReads svc s ps).2.length := by rw [runReads_length]; exact hj
  rw [List.getElem?_eq_getElem hlen]
  exact congrArg some (runReads_getElem svc s ps j hj)

/-! ## Wire encoding of the ExgData envelope (encoding/encoding.go) -/

/-- The JSON wire form of a PV: `encoding.WirePV` (`ts` in milliseconds). -/
structure WirePV where
  time : Int
  value : Json
  state : Int

/-- `encoding.PVToWire`: `ts = UnixNano / 1000000` with Go's truncating
integer division. -/
def pvToWire (pv : PV) : WirePV :=
  ⟨Int.tdiv pv.time 1000000, pv.value, pv.state⟩

/-- `encoding.WireError`. -/
structure WireError where
  code : Int
  message : String
deriving DecidableEq

/-- `encoding.ErrorToWire`: a `nil` error stays `nil` on the wire. -/
def errorToWire : Option Err → Option WireError
  | none => none
  | some e => some ⟨e.code, e.msg⟩

/-- One entry of `readResults`: `encoding.WireReadPVResult` (both fields are
`omitempty` pointers in Go, hence `Option`). -/
structure WireReadPVResult where
  pv : Option WirePV
  error : Option WireError

/-- `encoding.WireExgDataResults`, the ExgData response envelope. -/
structure WireExgDataResults where
  writeErrors : List (Option WireError)
  readResults : List WireReadPVResult

/-- `encoding.ExgDataResultsToWire`. -/
def exgDataResultsToWire (writeErrors : List (Option Err))
    (readResults : List ReadPVResult) : WireExgDataResults where
  writeErrors := writeErrors.map errorToWire
  readResults := readResults.map fun r =>
    match r.error with
    | some e => ⟨none, errorToWire (some e)⟩
    | none => ⟨some (pvToWire r.pv), none⟩

theorem errorToWire_eq_none_iff (e : Option Err) :
    errorToWire e = none ↔ e = none := by
  cases e <;> simp [errorToWire]

/-! ## Claim theorems: ExgData batch semantics -/

/-- C1: `BasicMetaService.ExgData` invokes `WritePV` exactly once per write
parameter in index order, all of them before any `ReadPV`; then `ReadPV`
exactly once per read path in index order (the event trace of an
instrumented backend is exactly the write events followed by the read
events).  A failing `WritePV`/`ReadPV` is recorded positionally in
`writeErrors[i]`/`readResults[j]` (each slot holds exactly the result of
the corresponding invocation) and does not prevent later operations: the
trace and the result lengths are the same whatever the backend returns. -/
theorem exgData_order_and_positional (svc : SvcPV σ) (s0 : σ)
    (ws : List WritePVParam) (rs : List String) :
    (exgData (traced svc) (s0, []) ws rs).1.2 =
        ws.map (fun w => SvcEvent.write w.path w.pv) ++ rs.map SvcEvent.read ∧
    (exgData svc s0 ws rs).2.1.length = ws.length ∧
    (exgData svc s0 ws rs).2.2.1.length = rs.length ∧
    (∀ i, ∀ _ : i < ws.length,
      (exgData svc s0 ws rs).2.1[i]? =
        some (svc.writePV (runWrites svc s0 (ws.take i)).1
                ws[i].path ws[i].pv).2) ∧
    (∀ j, ∀ _ : j < rs.length,
      (exgData svc s0 ws rs).2.2.1[j]? =
        some ⟨(svc.readPV (runReads svc (runWrites svc s0 ws).1
                  (rs.take j)).1 rs[j]).2.1,
              (svc.readPV (runReads svc (runWrites svc s0 ws).1
                  (rs.take j)).1 rs[j]).2.2⟩) := by
  refine ⟨?_, ?_, ?_, ?_, ?_⟩
  · show (runReads (traced svc) (runWrites (traced svc) (s0, []) ws).1 rs).1.2 = _
    rw [runWrites_traced, runReads_traced]
    simp
  · exact runWrites_length svc s0 ws
  · exact runReads_length svc (runWrites svc s0 ws).1 rs
  · intro i hi
    exact runWrites_getElem? svc s0 ws i hi
  · intro j hj
    exact runReads_getElem? svc (runWrites svc s0 ws).1 rs j hj

/-- A tiny concrete backend for witnesses: `/a` accepts writes, everything
else is rejected with 404; reads return the call counter as value. -/
def svcW : SvcPV Nat where
  writePV := fun s p _ =>
    (s + 1, if p = "/a" then none else some (mkErr 404 "nf"))
  readPV := fun s _ => (s + 1, (⟨0, Json.num (Int.ofNat s), 0⟩, none))

/-- Example write batch for witnesses. -/
def wsW : List WritePVParam :=
  [⟨"/a", ⟨0, Json.null, 0⟩⟩, ⟨"/b", ⟨0, Json.null, 0⟩⟩]

/-- Example read paths for witnesses. -/
def rsW : List String := ["/a"]

/-- Witness for C1 at a concrete backend and batch: the trace is the two
writes followed by the read, and the failing second write is recorded at
`writeErrors[1]`. -/
theorem exgData_order_and_positional_witness :
    (exgData (traced svcW) (0, []) wsW rsW).1.2 =
      [SvcEvent.write "/a" ⟨0, Json.null, 0⟩, SvcEvent.write "/b" ⟨0, Json.null, 0⟩,
       SvcEvent.read "/a"] ∧
    (exgData svcW 0 wsW rsW).2.1[1]? = some (some (mkErr 404 "nf")) := by
  have h := exgData_order_and_positional svcW 0 wsW rsW
  exact ⟨h.1.trans (by rfl), (h.2.2.2.1 1 (by decide)).trans (by rfl)⟩

/-- C2: the wire envelope built by `ExgDataResultsToWire` from a
`BasicMetaService.ExgData` response satisfies
`len(writeErrors) = len(writePVs)` and `len(readResults) = len(readPaths)`;
`writeErrors[i]` is null exactly when the i-th `WritePV` invocation
succeeded; and every `readResults[j]` carries exactly one of `pv` (on
success) or `error` (on failure), never both and never neither. -/
theorem exgData_wire_envelope (svc : SvcPV σ) (s0 : σ)
    (ws : List WritePVParam) (rs : List String) :
    (exgDataResultsToWire (exgData svc s0 ws rs).2.1
        (exgData svc s0 ws rs).2.2.1).writeErrors.length = ws.length ∧
    (exgDataResultsToWire (exgData svc s0 ws rs).2.1
        (exgData svc s0 ws rs).2.2.1).readResults.length = rs.length ∧
    (∀ i, ∀ _ : i < ws.length,
      ((exgDataResultsToWire (exgData svc s0 ws rs).2.1
          (exgData svc s0 ws rs).2.2.1).writeErrors[i]? = some none ↔
        (svc.writePV (runWrites svc s0 (ws.take i)).1
          ws[i].path ws[i].pv).2 = none)) ∧
    (∀ j, ∀ _ : j < rs.length, ∃ r,
      (exgDataResultsToWire (exgData svc s0 ws rs).2.1
          (exgData svc s0 ws rs).2.2.1).readResults[j]? = some r ∧
      ((r.pv.isSome ∧ r.error = none) ∨ (r.pv = none ∧ r.error.isSome))) := by
  refine ⟨?_, ?_, ?_, ?_⟩
  · simp [exgDataResultsToWire, exgData, runWrites_length]
  · simp [exgDataResultsToWire, exgData, runReads_length]
  · intro i hi
    show ((exgData svc s0 ws rs).2.1.map errorToWire)[i]? = some none ↔ _
    rw [List.getElem?_map]
    show ((runWrites svc s0 ws).2[i]?).map errorToWire = some none ↔ _
    rw [runWrites_getElem? svc s0 ws i hi]
    simp [errorToWire_eq_none_iff]
  · intro j hj
    have hlen : j < (exgData svc s0 ws rs).2.2.1.length := by
      show j < (runReads svc (runWrites svc s0 ws).1 rs).2.length
      rw [runReads_length]; exact hj
    have hmap : (exgDataResultsToWire (exgData svc s0 ws rs).2.1
        (exgData svc s0 ws rs).2.2.1).readResults[j]? =
        some (match ((exgData svc s0 ws rs).2.2.1.get ⟨j, hlen⟩).error with
          | some e => (⟨none, errorToWire (some e)⟩ : WireReadPVResult)
          | none =>
            ⟨some (pvToWire ((exgData svc s0 ws rs).2.2.1.get ⟨j, hlen⟩).pv), none⟩) := by
      show ((exgData svc s0 ws rs).2.2.1.map _)[j]? = _
      rw [List.getElem?_map, List.getElem?_eq_getElem hlen]
      rfl
    cases hcase : ((exgData svc s0 ws rs).2.2.1.get ⟨j, hlen⟩).error with
    | none =>
      refine ⟨⟨some (pvToWire ((exgData svc s0 ws rs).2.2.1.get ⟨j, hlen⟩).pv), none⟩,
        ?_, Or.inl (by simp)⟩
      rw [hmap]
      simp only [hcase]
    | some e =>
      refine ⟨⟨none, errorToWire (some e)⟩, ?_, Or.inr (by simp [errorToWire])⟩
      rw [hmap]
      simp only [hcase]

/-- Witness for C2 at the concrete backend and batch of the C1 witness:
`writeErrors[0]` is null because the write to `/a` succeeded, and
`readResults[0]` carries a `pv` and no `error`. -/
theorem exgData_wire_envelope_witness :
    ((exgDataResultsToWire (exgData svcW 0 wsW rsW).2.1
        (exgData svcW 0 wsW rsW).2.2.1).writeErrors[0]? = some none ↔
      (svcW.writePV (runWrites svcW 0 (wsW.take 0)).1
        wsW[0].path wsW[0].pv).2 = none) ∧
    (∃ r, (exgDataResultsToWire (exgData svcW 0 wsW rsW).2.1
        (exgData svcW 0 wsW rsW).2.2.1).readResults[0]? = some r ∧
      ((r.pv.isSome ∧ r.error = none) ∨ (r.pv = none ∧ r.error.isSome))) := by
  have h := exgData_wire_envelope svcW 0 wsW rsW
  exact ⟨h.2.2.1 0 (by decide), h.2.2.2 0 (by decide)⟩

/-- C10: `BasicMetaService.ExgData` always returns a `nil` `serviceError`,
whatever the backend does with the individual writes and reads; every
failure is reported only positionally. -/
theorem exgData_serviceError_none (svc : SvcPV σ) (s0 : σ)
    (ws : List WritePVParam) (rs : List String) :
    (exgData svc s0 ws rs).2.2.2 = none := rfl

/-! ## PV decoding (encoding.BytesToPV) -/

/-- Go `unicode.IsSpace` restricted to the Latin-1 range (the white space
characters relevant to `strings.TrimSpace` on JSON remainders). -/
def isSpaceGo (c : Char) : Bool :=
  c = ' ' ∨ c = '\t' ∨ c = '\n' ∨ c = '\r' ∨
  c = Char.ofNat 11 ∨ c = Char.ofNat 12 ∨
  c = Char.ofNat 133 ∨ c = Char.ofNat 160

/-- `strings.TrimSpace`: drop leading and trailing white space. -/
def trimSpace (l : List Char) : List Char :=
  ((l.dropWhile isSpaceGo).reverse.dropWhile isSpaceGo).reverse

/-- `encoding.BytesToPV` (encoding/encoding.go lines 23-73).  The strict
`encoding/json` decoder (`DisallowUnknownFields`, returning the decoded
`WirePV` together with the buffered remainder of the payload) and the plain
`json.Unmarshal` are `encoding/json` stdlib code, external to the
repository, and appear as the oracle parameters `strictDec` and
`unmarshal`; `now` is `time.Now().UnixNano()` captured at decode time.
After a successful strict parse any non-whitespace trailing content makes
the parse fail with `errUnexpectetContent`; in fuzzy mode a failed parse
falls back to the whole payload as a JSON value and then to the raw bytes
as a string value; `ts == 0` or missing means "now", otherwise `ts` is
milliseconds and is scaled by 10^6 to nanoseconds. -/
def bytesToPV (strictDec : String → Except String (WirePV × String))
    (unmarshal : String → Except String Json)
    (payload : String) (fuzzy : Bool) (now : Int) : Except String PV :=
  let attempt : Except String WirePV :=
    match strictDec payload with
    | .ok (w, rest) =>
      if trimSpace rest.toList = [] then .ok w
      else .error "Unexpectet content"
    | .error e => .error e
  let decoded : Except String WirePV :=
    match attempt with
    | .ok w => .ok w
    | .error e =>
      if fuzzy = false then .error e
      else
        match unmarshal payload with
        | .ok v => .ok ⟨0, v, 0⟩
        | .error _ => .ok ⟨0, Json.str payload, 0⟩
  match decoded with
  | .error e => .error e
  | .ok w =>
    .ok ⟨if w.time = 0 then now else w.time * 1000000, w.value, w.state⟩

/-- C3: in fuzzy mode `BytesToPV` succeeds on every payload, and the value
of the returned PV is the value field of the strictly parsed `WirePV`
(when the strict parse succeeded with only whitespace trailing), or the
whole payload parsed as a JSON value, or the raw payload as a string when
it is not valid JSON. -/
theorem bytesToPV_fuzzy_total (strictDec : String → Except String (WirePV × String))
    (unmarshal : String → Except String Json) (payload : String) (now : Int) :
    ∃ pv, bytesToPV strictDec unmarshal payload true now = .ok pv ∧
      ((∃ w rest, strictDec payload = .ok (w, rest) ∧
          trimSpace rest.toList = [] ∧ pv.value = w.value) ∨
       (∃ v, unmarshal payload = .ok v ∧ pv.value = v) ∨
       ((∀ v, unmarshal payload ≠ .ok v) ∧ pv.value = Json.str payload)) := by
  unfold bytesToPV
  cases hsd : strictDec payload with
  | ok wr =>
    obtain ⟨w, rest⟩ := wr
    by_cases htrim : trimSpace rest.toList = []
    · have htrim2 : trimSpace rest.data = [] := htrim
      refine ⟨⟨if w.time = 0 then now else w.time * 1000000, w.value, w.state⟩,
        by simp [htrim2], Or.inl ⟨w, rest, rfl, htrim, rfl⟩⟩
    · have htrim2 : ¬trimSpace rest.data = [] := htrim
      cases hum : unmarshal payload with
      | ok v =>
        refine ⟨⟨now, v, 0⟩, by simp [htrim2],
          Or.inr (Or.inl ⟨v, rfl, rfl⟩)⟩
      | error e =>
        refine ⟨⟨now, Json.str payload, 0⟩, by simp [htrim2],
          Or.inr (Or.inr ⟨by simp [hum], rfl⟩)⟩
  | error e =>
    cases hum : unmarshal payload with
    | ok v =>
      refine ⟨⟨now, v, 0⟩, by simp, Or.inr (Or.inl ⟨v, rfl, rfl⟩)⟩
    | error e2 =>
      refine ⟨⟨now, Json.str payload, 0⟩, by simp,
        Or.inr (Or.inr ⟨by simp [hum], rfl⟩)⟩

/-- C4 (amended): decoding the serialization of `PVToWire pv` in strict mode
returns `pv` again, provided the strict decoder inverts the serializer on
this payload (which is what `encoding/json` does for a marshalled
`WirePV`), the PV's time is of millisecond precision, and the time is not
exactly the epoch (a wire `ts` of `0` is decoded as "now", so the epoch
itself does not round-trip). -/
theorem bytesToPV_pvToWire_roundtrip
    (strictDec : String → Except String (WirePV × String))
    (unmarshal : String → Except String Json) (marshal : WirePV → String)
    (pv : PV) (now : Int)
    (hdec : strictDec (marshal (pvToWire pv)) = .ok (pvToWire pv, ""))
    (hms : pv.time % 1000000 = 0) (hnz : pv.time ≠ 0) :
    bytesToPV strictDec unmarshal (marshal (pvToWire pv)) false now =
      .ok pv := by
  obtain ⟨t, v, st⟩ := pv
  obtain ⟨k, hk⟩ : (1000000 : Int) ∣ t := Int.dvd_of_emod_eq_zero hms
  have htdiv : Int.tdiv t 1000000 = k := by
    rw [hk]; exact Int.mul_tdiv_cancel_left k (by decide)
  have hknz : k ≠ 0 := by
    intro h0
    exact hnz (by simp [hk, h0])
  unfold bytesToPV
  rw [hdec]
  have hw : pvToWire ⟨t, v, st⟩ = ⟨k, v, st⟩ := by
    simp [pvToWire, htdiv]
  rw [hw]
  show (Except.ok (⟨if k = 0 then now else k * 1000000, v, st⟩ : PV) :
      Except String PV) = Except.ok ⟨t, v, st⟩
  have hkt : k * 1000000 = t := by rw [Int.mul_comm]; exact hk.symm
  rw [if_neg hknz, hkt]

/-- Concrete oracles and PV for the C4 witness: a strict decoder that
returns the wire PV `ts=5` with empty remainder. -/
def sdRt : String → Except String (WirePV × String) :=
  fun _ => .ok (⟨5, Json.null, 0⟩, "")

/-- The C4 witness unmarshal oracle (never consulted in strict mode). -/
def umRt : String → Except String Json := fun _ => .error "not json"

/-- The C4 witness serializer oracle. -/
def mRt : WirePV → String := fun _ => "j"

/-- The C4 witness PV: 5 ms after the epoch. -/
def pvRt : PV := ⟨5000000, Json.null, 0⟩

/-- Witness for the amended C4 at a concrete PV and concrete oracles. -/
theorem bytesToPV_pvToWire_roundtrip_witness :
    bytesToPV sdRt umRt (mRt (pvToWire pvRt)) false 77 = .ok pvRt :=
  bytesToPV_pvToWire_roundtrip sdRt umRt mRt pvRt 77 (by rfl) (by decide)
    (by decide)

/-- The C4 counterexample PV: exactly the Unix epoch (time 0, which is
millisecond-rounded). -/
def pvEpoch : PV := ⟨0, Json.null, 0⟩

/-- Strict-decoder oracle for the C4 counterexample; it behaves exactly
like `encoding/json` on the marshalled form of `pvEpoch` (wire `ts=0`). -/
def sdEpoch : String → Except String (WirePV × String) :=
  fun _ => .ok (⟨0, Json.null, 0⟩, "")

/-- Counterexample to C4 as stated: the epoch PV has millisecond-rounded
time and a faithfully inverting decoder, yet decoding the serialization of
`PVToWire pvEpoch` at `now = 1000000` does not give back `pvEpoch`,
because the wire `ts = 0` is decoded as "now". -/
theorem bytesToPV_roundtrip_cex :
    sdEpoch (mRt (pvToWire pvEpoch)) = .ok (pvToWire pvEpoch, "") ∧
    pvEpoch.time % 1000000 = 0 ∧
    bytesToPV sdEpoch umRt (mRt (pvToWire pvEpoch)) false 1000000 ≠
      .ok pvEpoch := by
  refine ⟨rfl, by decide, ?_⟩
  intro h
  have heval : bytesToPV sdEpoch umRt (mRt (pvToWire pvEpoch)) false 1000000 =
      .ok ⟨1000000, Json.null, 0⟩ := rfl
  have ht : (1000000 : Int) = 0 :=
    congrArg (fun x => match x with | .ok p => p.time | .error _ => (5 : Int))
      (heval.symm.trans h)
  exact absurd ht (by decide)

/-! ## Client history timestamp rounding (client/client.go) -/

/-- The millisecond value placed in the `begin`/`end` URL parameters by
`Client.ReadHistory` (client/client.go lines 143-152):
`t.Add(999999 * time.Nanosecond).Truncate(time.Millisecond)` followed by
`UnixNano() / 1000000`.  `time.Time.Truncate` rounds toward minus infinity
on the absolute time line (the zero `time.Time` is a whole number of
seconds before the Unix epoch, so millisecond boundaries agree with Unix
nanoseconds), hence `Int.fdiv`; Go's integer `/` truncates toward zero,
hence `Int.tdiv`. -/
def histParamMs (t : Int) : Int :=
  Int.tdiv (Int.fdiv (t + 999999) 1000000 * 1000000) 1000000

theorem histParamMs_eq_fdiv (t : Int) :
    histParamMs t = Int.fdiv (t + 999999) 1000000 := by
  unfold histParamMs
  exact Int.mul_tdiv_cancel _ (by decide)

/-- C9: the `begin`/`end` values sent by `Client.ReadHistory` are the given
times rounded up to the next whole millisecond: the sent millisecond value
`m` is the least one with `t ≤ m * 10^6`, and a time already on a
millisecond boundary is sent unchanged (`m * 10^6 = t`). -/
theorem histParamMs_rounds_up (t : Int) :
    t ≤ histParamMs t * 1000000 ∧
    histParamMs t * 1000000 < t + 1000000 ∧
    (t % 1000000 = 0 → histParamMs t * 1000000 = t) := by
  rw [histParamMs_eq_fdiv, Int.fdiv_eq_ediv _ (by decide)]
  refine ⟨?_, ?_, ?_⟩ <;> omega

/-- Witness for C9 at concrete times: 1 ns past a boundary is sent as the
next millisecond, and a boundary time is sent unchanged. -/
theorem histParamMs_rounds_up_witness :
    histParamMs 2000001 * 1000000 = 3000000 ∧
    (2000000 : Int) % 1000000 = 0 ∧ histParamMs 2000000 * 1000000 = 2000000 := by
  refine ⟨?_, by decide, (histParamMs_rounds_up 2000000).2.2 (by decide)⟩
  have h := histParamMs_rounds_up 2000001
  have h1 := h.1
  have h2 := h.2.1
  omega

/-! ## Meta-service ReadProperties (part_000) -/

/-- The root discovery links appended by `BasicMetaService.ReadProperties`:
`/~exgdata` with a human title. -/
def exgDataLink : Link := ⟨"~service", "~exgdata".toList, "ExgData Service"⟩

/-- The root discovery link for the query service. -/
def queryLink : Link := ⟨"~service", "~query".toList, "Search Service"⟩

/-- `BasicMetaService.ReadProperties` (part_000 lines 90-108): delegate to
the backend; for the root path on success, append the two `~service`
discovery links after the backend's links; anything else passes through
unmodified. -/
def metaReadProperties (backend : Pth → AttrValues × List Link × Option Err)
    (path : Pth) : AttrValues × List Link × Option Err :=
  if path ≠ "/".toList ∨ (backend path).2.2 ≠ none then backend path
  else ((backend path).1, (backend path).2.1 ++ [exgDataLink, queryLink],
        (backend path).2.2)

/-- C7: on path `/` with a successful backend call, the meta layer returns
the backend's links with exactly the two `~service` links (`~exgdata` then
`~query`, both with non-empty titles) appended, and the backend's
attributes unchanged; on every other path the backend's response passes
through unmodified. -/
theorem metaReadProperties_spec
    (backend : Pth → AttrValues × List Link × Option Err) (path : Pth) :
    ((path = "/".toList ∧ (backend path).2.2 = none) →
      metaReadProperties backend path =
        ((backend path).1,
         (backend path).2.1 ++ [exgDataLink, queryLink], none) ∧
      exgDataLink.role = "~service" ∧ queryLink.role = "~service" ∧
      exgDataLink.target = "~exgdata".toList ∧
      queryLink.target = "~query".toList ∧
      exgDataLink.title ≠ "" ∧ queryLink.title ≠ "") ∧
    (path ≠ "/".toList →
      metaReadProperties backend path = backend path) := by
  constructor
  · rintro ⟨hpath, herr⟩
    subst hpath
    refine ⟨?_, rfl, rfl, rfl, rfl, by decide, by decide⟩
    unfold metaReadProperties
    rw [if_neg (fun hor => hor.elim (fun h1 => h1 rfl) (fun h2 => h2 herr)),
      herr]
  · intro hpath
    unfold metaReadProperties
    rw [if_pos (Or.inl hpath)]

/-- A concrete backend for the C7 witness: one link at the root. -/
def backendW : Pth → AttrValues × List Link × Option Err :=
  fun p =>
    if p = "/".toList then
      ([("a", Json.num 1)], [⟨"collection", "devs".toList, "Devices"⟩], none)
    else ([], [], some (mkErr 404 "nf"))

/-- Witness for C7: at the root the two service links are appended after
the backend's link; on `/x` the backend's 404 response passes through. -/
theorem metaReadProperties_spec_witness :
    metaReadProperties backendW "/".toList =
      ([("a", Json.num 1)],
       [⟨"collection", "devs".toList, "Devices"⟩, exgDataLink, queryLink],
       none) ∧
    metaReadProperties backendW "/x".toList = backendW "/x".toList := by
  constructor
  · exact (((metaReadProperties_spec backendW "/".toList).1 ⟨rfl, rfl⟩).1).trans
      (by rfl)
  · exact (metaReadProperties_spec backendW "/x".toList).2 (by decide)

/-! ## Go `path` package (stdlib), modelled on `List Char`

The query traversal (part_001) and the request dispatcher (server/handler.go)
use `path.IsAbs`, `path.Clean`, `path.Join`, `path.Dir` and `path.Base`.
These are embedded here byte-for-byte following the Go sources (characters
standing in for bytes; all modelled paths are ASCII or already
percent-encoded, where the two coincide). -/

/-- `path.IsAbs`. -/
def pathIsAbs (p : Pth) : Bool := p.head? = some '/'

/-- The backtracking step of `path.Clean` for a `..` element: with the
output buffer held in reverse, pop the last element up to (and including)
the separating `/`, never popping below the `dotdot` floor. -/
def popToSlash (dotdot : Nat) : List Char → List Char
  | [] => []
  | c :: rest =>
    if rest.length > dotdot ∧ c ≠ '/' then popToSlash dotdot rest else rest

/-- The main loop of `path.Clean`: `r` is the unread input, `rev` the output
buffer in reverse, `dotdot` the floor below which `..` cannot backtrack.
The loop is driven by the explicit iteration bound `fuel`; `pathClean`
passes the input length, which always suffices because every iteration
consumes at least one input character, so the zero-fuel arm is never
reached. -/
def cleanCore (rooted : Bool) : Nat → List Char → List Char → Nat → List Char
  | _, [], rev, _ => rev
  | 0, _ :: _, rev, _ => rev
  | fuel + 1, c :: r, rev, dotdot =>
    if c = '/' then cleanCore rooted fuel r rev dotdot
    else if c = '.' ∧ (r = [] ∨ r.head? = some '/') then
      cleanCore rooted fuel r rev dotdot
    else if c = '.' ∧ r.head? = some '.' ∧
        (r.tail = [] ∨ r.tail.head? = some '/') then
      if rev.length > dotdot then
        cleanCore rooted fuel r.tail (popToSlash dotdot rev) dotdot
      else if ¬rooted then
        let rev2 := if rev.length > 0 then '.' :: '.' :: '/' :: rev
                    else '.' :: '.' :: rev
        cleanCore rooted fuel r.tail rev2 rev2.length
      else
        cleanCore rooted fuel r.tail rev dotdot
    else
      let rev1 := if (rooted ∧ rev.length ≠ 1) ∨ (¬rooted ∧ rev.length ≠ 0)
                  then '/' :: rev else rev
      cleanCore rooted fuel (r.dropWhile (· ≠ '/'))
        ((c :: r.takeWhile (· ≠ '/')).reverse ++ rev1) dotdot

/-- `path.Clean`. -/
def pathClean (p : Pth) : Pth :=
  if p = [] then ['.']
  else
    let rooted := p.head? = some '/'
    let rev := if rooted then cleanCore rooted p.length p.tail ['/'] 1
               else cleanCore rooted p.length p [] 0
    if rev = [] then ['.'] else rev.reverse

/-- `path.Join` for two elements: skip leading empty elements, join with
`/`, and `Clean` the result. -/
def pathJoin (a b : Pth) : Pth :=
  if a = [] ∧ b = [] then []
  else if a = [] then pathClean b
  else pathClean (a ++ '/' :: b)

/-- `path.Dir`: everything up to and including the final `/` (empty when
there is none), cleaned. -/
def pathDir (p : Pth) : Pth :=
  pathClean ((p.reverse.dropWhile (· ≠ '/')).reverse)

/-- `path.Base`: strip trailing slashes, take what follows the last `/`;
empty input gives `.`, an all-slash input gives `/`. -/
def pathBase (p : Pth) : Pth :=
  if p = [] then ['.']
  else
    let p1 := (p.reverse.dropWhile (· = '/')).reverse
    let p2 := (p1.reverse.takeWhile (· ≠ '/')).reverse
    if p2 = [] then ['/'] else p2

/-! ## Go `net/url.PathUnescape` (stdlib), modelled on `List Char` -/

/-- Hexadecimal digit test of `net/url`'s `ishex`. -/
def isHexGo (c : Char) : Bool :=
  ('0' ≤ c ∧ c ≤ '9') ∨ ('a' ≤ c ∧ c ≤ 'f') ∨ ('A' ≤ c ∧ c ≤ 'F')

/-- Hexadecimal digit value of `net/url`'s `unhex`. -/
def unhexGo (c : Char) : Nat :=
  if '0' ≤ c ∧ c ≤ '9' then c.toNat - '0'.toNat
  else if 'a' ≤ c ∧ c ≤ 'f' then c.toNat - 'a'.toNat + 10
  else if 'A' ≤ c ∧ c ≤ 'F' then c.toNat - 'A'.toNat + 10
  else 0

/-- `url.PathUnescape`: decode `%XX` escapes, failing on any `%` that is
not followed by two hexadecimal digits (decoded bytes are represented as
characters). -/
def unescapePath : Pth → Except String Pth
  | [] => .ok []
  | '%' :: rest =>
    match rest with
    | a :: b :: rest2 =>
      if isHexGo a ∧ isHexGo b then
        match unescapePath rest2 with
        | .ok t => .ok (Char.ofNat (unhexGo a * 16 + unhexGo b) :: t)
        | .error e => .error e
      else .error "invalid URL escape"
    | _ => .error "invalid URL escape"
  | c :: rest =>
    match unescapePath rest with
    | .ok t => .ok (c :: t)
    | .error e => .error e

/-! ## Go `path.Match` (stdlib), modelled on `List Char`

The query traversal matches each pattern segment against child identifiers
with `path.Match`.  The embedding follows Go's `path/match.go`
(`scanChunk`, `getEsc`, the range loop and per-chunk matcher inside
`matchChunk`, the star loop and the trailing-pattern validation inside
`Match`); characters stand in for bytes.  The loops whose Go termination
argument is "the chunk shrinks at every step" are driven by an explicit
iteration bound `fuel`, always instantiated with the length of the list
being consumed (plus one), which suffices because every iteration consumes
at least one element; the zero-fuel arms are never reached. -/

/-- The chunk-scan loop of `scanChunk` after the leading stars, as the
index `i` at which the scan stops: stop at an unbracketed `*`, treat a
`\\x` escape pair as a unit, track bracket nesting. -/
def scanLen (inrange : Bool) : Pth → Nat
  | [] => 0
  | c :: rest =>
    if c = '*' ∧ inrange = false then 0
    else if c = '\\' then
      match rest with
      | [] => 1
      | _ :: rest2 => 2 + scanLen inrange rest2
    else
      1 + scanLen (if c = '[' then true else if c = ']' then false
          else inrange) rest

/-- Result of `scanChunk`: leading-star flag, first chunk, rest of the
pattern. -/
structure ScanOut where
  star : Bool
  chunk : Pth
  rest : Pth

/-- `scanChunk` of path/match.go: consume leading stars, then split the
pattern at the scan index (Go slices `pattern[0:i]` and `pattern[i:]`). -/
def scanChunk (pattern : Pth) : ScanOut :=
  let star := pattern.head? = some '*'
  let p := pattern.dropWhile (· = '*')
  ⟨star, p.take (scanLen false p), p.drop (scanLen false p)⟩

/-- `getEsc` of path/match.go: one (possibly escaped) range endpoint; a
leading `-` or `]`, a dangling escape, or an endpoint in final position
(no closing `]` can follow) is a bad pattern. -/
def getEsc : Pth → Except Unit (Char × Pth)
  | [] => .error ()
  | c :: rest =>
    if c = '-' ∨ c = ']' then .error ()
    else if c = '\\' then
      match rest with
      | [] => .error ()
      | d :: rest2 => if rest2 = [] then .error () else .ok (d, rest2)
    else if rest = [] then .error () else .ok (c, rest)

/-- The range-parsing loop inside `matchChunk`'s `[` case: parse
`lo`, optionally `-hi`, accumulate whether the rune matches some range,
until the closing `]` (which must close at least one range). -/
def rangeLoop (r : Char) : Nat → Bool → Nat → Pth → Except Unit (Bool × Pth)
  | 0, _, _, _ => .error ()
  | fuel + 1, matched, nrange, chunk =>
    if chunk.head? = some ']' ∧ nrange > 0 then .ok (matched, chunk.tail)
    else
      match getEsc chunk with
      | .error _ => .error ()
      | .ok (lo, chunk1) =>
        match (if chunk1.head? = some '-' then getEsc chunk1.tail
               else .ok (lo, chunk1)) with
        | .error _ => .error ()
        | .ok (hi, chunk2) =>
          rangeLoop r fuel (matched || decide (lo ≤ r ∧ r ≤ hi)) (nrange + 1)
            chunk2

/-- The whole `[` character-class case of `matchChunk`: strip an optional
leading `^`, run the range loop, and report whether the class FAILED to
match (`match == negated` in Go) together with the remaining chunk. -/
def classStep (r : Char) (chunk : Pth) : Except Unit (Bool × Pth) :=
  match chunk with
  | '^' :: r2 =>
    match rangeLoop r (r2.length + 1) false 0 r2 with
    | .error _ => .error ()
    | .ok (matched, rest) => .ok (matched = true, rest)
  | _ =>
    match rangeLoop r (chunk.length + 1) false 0 chunk with
    | .error _ => .error ()
    | .ok (matched, rest) => .ok (matched = false, rest)

/-- The per-chunk matcher `matchChunk` of path/match.go: consume the chunk
against the head of `s`, carrying the `failed` flag (after a mismatch the
chunk is still consumed, checking only well-formedness); returns the
remaining name and whether the chunk matched. -/
def matchChunkGo : Nat → Pth → Pth → Bool → Except Unit (Pth × Bool)
  | _, [], s, failed => if failed then .ok ([], false) else .ok (s, true)
  | 0, _ :: _, _, _ => .error ()
  | fuel + 1, c :: rest, s, failed =>
    let failed1 := failed || s.isEmpty
    if c = '[' then
      if failed1 = false then
        match s with
        | sc :: stail =>
          match classStep sc rest with
          | .error _ => .error ()
          | .ok (cf, rest3) => matchChunkGo fuel rest3 stail cf
        | [] =>
          match classStep (Char.ofNat 0) rest with
          | .error _ => .error ()
          | .ok (cf, rest3) => matchChunkGo fuel rest3 [] cf
      else
        match classStep (Char.ofNat 0) rest with
        | .error _ => .error ()
        | .ok (cf, rest3) => matchChunkGo fuel rest3 s (failed1 || cf)
    else if c = '?' then
      if failed1 = false then
        match s with
        | sc :: stail => matchChunkGo fuel rest stail (decide (sc = '/'))
        | [] => matchChunkGo fuel rest [] true
      else matchChunkGo fuel rest s failed1
    else if c = '\\' then
      match rest with
      | [] => .error ()
      | d :: rest2 =>
        if failed1 = false then
          match s with
          | sc :: stail => matchChunkGo fuel rest2 stail (decide (d ≠ sc))
          | [] => matchChunkGo fuel rest2 [] true
        else matchChunkGo fuel rest2 s failed1
    else
      if failed1 = false then
        match s with
        | sc :: stail => matchChunkGo fuel rest stail (decide (c ≠ sc))
        | [] => matchChunkGo fuel rest [] true
      else matchChunkGo fuel rest s failed1

/-- `matchChunk` at its natural iteration bound. -/
def matchChunk (chunk s : Pth) (failed : Bool) : Except Unit (Pth × Bool) :=
  matchChunkGo chunk.length chunk s failed

/-- The `*` search loop inside `Match`: try to match the chunk at every
byte position of the name (never crossing `/`); `patEmpty` tells whether
this chunk is the last one, in which case a match must exhaust the name. -/
def starLoop (chunk : Pth) (patEmpty : Bool) : Pth → Except Unit (Option Pth)
  | [] => .ok none
  | c :: restName =>
    if c = '/' then .ok none
    else
      match matchChunk chunk restName false with
      | .error _ => .error ()
      | .ok (t, ok) =>
        if ok then
          if patEmpty ∧ t ≠ [] then starLoop chunk patEmpty restName
          else .ok (some t)
        else starLoop chunk patEmpty restName

/-- The trailing validation loop of `Match`: before returning a plain
`false`, check that the rest of the pattern is syntactically valid by
matching every remaining chunk against the empty name. -/
def validateRest : Nat → Pth → Except Unit Unit
  | _, [] => .ok ()
  | 0, _ :: _ => .error ()
  | fuel + 1, pc :: prest =>
    match matchChunk (scanChunk (pc :: prest)).chunk [] false with
    | .error _ => .error ()
    | .ok _ => validateRest fuel (scanChunk (pc :: prest)).rest

/-- `path.Match` of path/match.go.  A trailing star with an empty chunk
matches any remainder without `/`; otherwise match the chunk at the front,
on success (and progress possible) continue with the rest; with a leading
star retry at every later position; before a plain mismatch verdict the
remaining pattern is validated.  The only error is Go's `ErrBadPattern`. -/
def goMatch : Nat → Pth → Pth → Except Unit Bool
  | _, [], name => .ok name.isEmpty
  | 0, _ :: _, _ => .error ()
  | fuel + 1, pc :: prest, name =>
    let sc := scanChunk (pc :: prest)
    if sc.star ∧ sc.chunk = [] then .ok (! name.contains '/')
    else
      match matchChunk sc.chunk name false with
      | .error _ => .error ()
      | .ok (t, ok) =>
        if ok ∧ (t = [] ∨ sc.rest ≠ []) then goMatch fuel sc.rest t
        else
          match (if sc.star then starLoop sc.chunk (sc.rest = []) name
                 else .ok none) with
          | .error _ => .error ()
          | .ok (some t2) => goMatch fuel sc.rest t2
          | .ok none =>
            match validateRest sc.rest.length sc.rest with
            | .error _ => .error ()
            | .ok _ => .ok false

/-- `path.Match` at its natural iteration bound. -/
def pathMatch (pattern name : Pth) : Except Unit Bool :=
  goMatch (pattern.length + 1) pattern name

/-! ## Query traversal (part_001) and `BasicMetaService.Query` (part_000) -/

/-- A single query hit: `veap.QueryResult`. -/
structure QueryResult where
  path : Pth
  attributes : AttrValues
  links : List Link

/-- The part of the backend `veap.Service` seen by the traversal:
`ReadProperties` as a pure function. -/
abbrev SvcProps := Pth → AttrValues × List Link × Option Err

/-- `childPaths` (part_001 lines 9-27): resolve each link target against
the object path, skip `~service` links, and keep only direct children. -/
def childPaths (objPath : Pth) : List Link → List Pth
  | [] => []
  | link :: more =>
    if link.role = "~service" then childPaths objPath more
    else
      let linkPath := if pathIsAbs link.target then link.target
                      else pathJoin objPath link.target
      if pathDir linkPath = objPath then linkPath :: childPaths objPath more
      else childPaths objPath more

/-- `strings.Cut(pattern, "/")`: the segment before the first `/` and the
remainder after it (empty when there is no `/`). -/
def cutSlash (p : Pth) : Pth × Pth :=
  (p.takeWhile (· ≠ '/'), (p.dropWhile (· ≠ '/')).tail)

/-- The `for childPath := range childPaths(...)` loop of `traverseTree`
(part_001 lines 50-65): percent-decode the child identifier
(InternalServerError on failure), match it with `path.Match` (BadRequest
on a malformed pattern), and recurse into matches through `recurse`, which
the caller instantiates with the traversal continuation for the rest of
the pattern. -/
def travChildren
    (recurse : Pth → List QueryResult → Except Err (List QueryResult))
    (rawPattern pattern : Pth) :
    List Pth → List QueryResult → Except Err (List QueryResult)
  | [], acc => .ok acc
  | childPath :: more, acc =>
    match unescapePath (pathBase childPath) with
    | .error _ =>
      .error (mkErr 500 ("Invalid identifier '" ++
        (pathBase childPath).asString ++
        "' for object: invalid URL escape"))
    | .ok childIdent =>
      match pathMatch pattern childIdent with
      | .error _ =>
        .error (mkErr 400 ("Invalid content '" ++ rawPattern.asString ++
          "' in URL parameter ~path for query service: syntax error in pattern"))
      | .ok true =>
        match recurse childPath acc with
        | .error e => .error e
        | .ok acc2 => travChildren recurse rawPattern pattern more acc2
      | .ok false => travChildren recurse rawPattern pattern more acc

/-- `traverseTree` (part_001 lines 29-67): read the current object, emit it
when the pattern is exhausted, otherwise percent-decode the next pattern
segment (BadRequest on an invalid escape) and recurse into every matching
direct child.  The `handle` callback of the Go code only appends to the
result slice and never fails, so it is modelled as the threaded
accumulator `acc`.  Recursion depth is bounded by the number of pattern
segments; the explicit bound `fuel` (pattern length plus one, always
sufficient since every level consumes at least one pattern character)
drives the recursion. -/
def traverseTreeF (svc : SvcProps) : Nat → Pth → Pth → List QueryResult →
    Except Err (List QueryResult)
  | 0, _, _, acc => .ok acc
  | fuel + 1, pathPattern, startPath, acc =>
    match svc startPath with
    | (_, _, some e) => .error e
    | (attrs, links, none) =>
      if pathPattern = [] then .ok (acc ++ [⟨startPath, attrs, links⟩])
      else
        match unescapePath (cutSlash pathPattern).1 with
        | .error _ =>
          .error (mkErr 400 ("Invalid content '" ++
            (cutSlash pathPattern).1.asString ++
            "' in URL parameter ~path for query service: invalid URL escape"))
        | .ok pattern =>
          travChildren
            (fun childPath acc2 =>
              traverseTreeF svc fuel (cutSlash pathPattern).2 childPath acc2)
            (cutSlash pathPattern).1 pattern (childPaths startPath links) acc

/-- `traverseTree` at its natural recursion bound. -/
def traverseTree (svc : SvcProps) (pathPattern startPath : Pth)
    (acc : List QueryResult) : Except Err (List QueryResult) :=
  traverseTreeF svc (pathPattern.length + 1) pathPattern startPath acc

/-- `strings.TrimPrefix(pathPattern, "/")`. -/
def trimSlashPref : Pth → Pth
  | '/' :: rest => rest
  | p => p

/-- The pattern loop of `BasicMetaService.Query` (part_000 lines 74-87):
evaluate the patterns in order against the meta service itself (so root
reads see the appended discovery links), concatenating results; the first
error aborts the whole query with `nil` results. -/
def queryLoop (svc : SvcProps) : List Pth → List QueryResult →
    List QueryResult × Option Err
  | [], results => (results, none)
  | pat :: more, results =>
    match traverseTree svc (trimSlashPref pat) "/".toList results with
    | .error e => ([], some e)
    | .ok results2 => queryLoop svc more results2

/-- `BasicMetaService.Query`: traverse from the root for every pattern,
using the meta layer's own `ReadProperties`. -/
def basicQuery (backend : SvcProps) (pathPatterns : List Pth) :
    List QueryResult × Option Err :=
  queryLoop (metaReadProperties backend) pathPatterns []

theorem pathMatch_bracket (name : Pth) :
    pathMatch ['['] name = .error () := by
  cases name <;> rfl

theorem queryLoop_error_nil (svc : SvcProps) (pats : List Pth)
    (results : List QueryResult) (h : (queryLoop svc pats results).2 ≠ none) :
    (queryLoop svc pats results).1 = [] := by
  induction pats generalizing results with
  | nil => exact absurd rfl h
  | cons pat more ih =>
    rw [queryLoop] at h ⊢
    cases htrav : traverseTree svc (trimSlashPref pat) "/".toList results with
    | error e => rfl
    | ok results2 =>
      rw [htrav] at h
      exact ih results2 h

theorem traverseTreeF_badEscape (svc : SvcProps) (fuel : Nat)
    (pp start : Pth) (acc : List QueryResult)
    (attrs : AttrValues) (links : List Link) (m : String)
    (hsvc : svc start = (attrs, links, none))
    (hpp : pp ≠ [])
    (hesc : unescapePath (cutSlash pp).1 = .error m) :
    traverseTreeF svc (fuel + 1) pp start acc =
      .error (mkErr 400 ("Invalid content '" ++ (cutSlash pp).1.asString ++
        "' in URL parameter ~path for query service: invalid URL escape")) := by
  simp [traverseTreeF, hsvc, hpp, hesc]

theorem traverseTreeF_bracketChild (svc : SvcProps) (fuel : Nat)
    (start : Pth) (acc : List QueryResult)
    (attrs : AttrValues) (links : List Link)
    (c : Pth) (cs : List Pth) (ident : Pth)
    (hsvc : svc start = (attrs, links, none))
    (hchild : childPaths start links = c :: cs)
    (hident : unescapePath (pathBase c) = .ok ident) :
    traverseTreeF svc (fuel + 1) "[".toList start acc =
      .error (mkErr 400 ("Invalid content '" ++ ("[".toList).asString ++
        "' in URL parameter ~path for query service: syntax error in pattern")) := by
  have hne : (['['] : Pth) ≠ [] := by decide
  have hcut : unescapePath (cutSlash (['['] : Pth)).1 =
      .ok ['['] := rfl
  have hc1 : (cutSlash (['['] : Pth)).1 = ['['] := rfl
  have hu : unescapePath (['['] : Pth) = .ok ['['] := rfl
  simp [traverseTreeF, hsvc, hne, hcut, hchild, travChildren, hident,
    pathMatch_bracket, hc1, hu]

/-- An always-empty backend: every object exists with no attributes and no
links. -/
def svcEmptyQ : SvcProps := fun _ => ([], [], none)

/-- Counterexample to C6 as stated: the pattern `[` is a malformed bracket
expression (`path.Match` rejects it against every child name, e.g. `x`),
yet `Query` over a backend whose root has no children succeeds with no
results instead of failing with BadRequest — the malformed segment is
never applied to any child, so the error is never raised. -/
theorem basicQuery_bracket_cex :
    pathMatch "[".toList "x".toList = .error () ∧
    basicQuery svcEmptyQ ["[".toList] = ([], none) := ⟨rfl, rfl⟩

/-- C6 (amended): a malformed query pattern fails the whole `Query` with
BadRequest only when the traversal actually applies it.  (1) On any
failure, no partial results are returned (the result slice is nil).
(2) A pattern whose first segment contains an invalid percent-escape fails
with BadRequest whenever the root is readable (the segment is decoded
before the children are consulted).  (3) The malformed bracket pattern `[`
fails with BadRequest whenever the root is readable and has at least one
direct child (whose identifier decodes); with no children the malformed
segment is never matched and the pattern yields no error (see the
counterexample). -/
theorem basicQuery_malformed_spec (backend : SvcProps) :
    (∀ pats, (basicQuery backend pats).2 ≠ none →
      (basicQuery backend pats).1 = []) ∧
    (∀ pattern m, (backend "/".toList).2.2 = none →
      unescapePath (cutSlash (trimSlashPref pattern)).1 = .error m →
      ∃ e, basicQuery backend [pattern] = ([], some e) ∧ e.code = 400) ∧
    ((backend "/".toList).2.2 = none →
      ∀ c cs ident,
        childPaths "/".toList
          (metaReadProperties backend "/".toList).2.1 = c :: cs →
        unescapePath (pathBase c) = .ok ident →
        ∃ e, basicQuery backend ["[".toList] = ([], some e) ∧
          e.code = 400) := by
  have hroot : (backend "/".toList).2.2 = none →
      metaReadProperties backend "/".toList =
        ((backend "/".toList).1,
         (backend "/".toList).2.1 ++ [exgDataLink, queryLink], none) := by
    intro herr
    unfold metaReadProperties
    rw [if_neg (fun hor => hor.elim (fun h1 => h1 rfl) (fun h2 => h2 herr)),
      herr]
  refine ⟨fun pats => queryLoop_error_nil _ pats [], ?_, ?_⟩
  · intro pattern m herr hesc
    have hp' : trimSlashPref pattern ≠ [] := by
      intro h0
      rw [h0] at hesc
      exact absurd hesc (by simp [cutSlash, unescapePath])
    have htrav : traverseTree (metaReadProperties backend)
        (trimSlashPref pattern) "/".toList [] =
        .error (mkErr 400 ("Invalid content '" ++
          (cutSlash (trimSlashPref pattern)).1.asString ++
          "' in URL parameter ~path for query service: invalid URL escape")) := by
      rw [traverseTree]
      exact traverseTreeF_badEscape _ _ _ _ _ _ _ m (hroot herr) hp' hesc
    refine ⟨mkErr 400 ("Invalid content '" ++
      (cutSlash (trimSlashPref pattern)).1.asString ++
      "' in URL parameter ~path for query service: invalid URL escape"),
      ?_, rfl⟩
    show queryLoop (metaReadProperties backend) [pattern] [] = _
    rw [queryLoop, htrav]
  · intro herr c cs ident hchild hident
    have hch : childPaths "/".toList
        ((backend "/".toList).2.1 ++ [exgDataLink, queryLink]) = c :: cs := by
      rw [← hchild, hroot herr]
    have htrav : traverseTree (metaReadProperties backend)
        "[".toList "/".toList [] =
        .error (mkErr 400 ("Invalid content '" ++ ("[".toList).asString ++
          "' in URL parameter ~path for query service: syntax error in pattern")) := by
      rw [traverseTree]
      exact traverseTreeF_bracketChild _ _ _ _ _ _ c cs ident (hroot herr)
        hch hident
    refine ⟨mkErr 400 ("Invalid content '" ++ ("[".toList).asString ++
      "' in URL parameter ~path for query service: syntax error in pattern"),
      ?_, rfl⟩
    show queryLoop (metaReadProperties backend) ["[".toList] [] = _
    have htrim : trimSlashPref "[".toList = "[".toList := rfl
    rw [queryLoop, htrim, htrav]

/-- A backend with a single child `a` of the root, for the C6 witness. -/
def svcOneChild : SvcProps := fun p =>
  if p = "/".toList then ([], [⟨"col", "a".toList, ""⟩], none)
  else ([], [], none)

/-- Witness for the amended C6 at concrete backends: an invalid
percent-escape in the first segment fails a query on the empty backend
with 400, and the `[` pattern fails with 400 on a backend whose root has
the child `a`. -/
theorem basicQuery_malformed_spec_witness :
    (∃ e, basicQuery svcEmptyQ ["%zz".toList] = ([], some e) ∧
      e.code = 400) ∧
    (∃ e, basicQuery svcOneChild ["[".toList] = ([], some e) ∧
      e.code = 400) := by
  constructor
  · exact (basicQuery_malformed_spec svcEmptyQ).2.1 "%zz".toList
      "invalid URL escape" rfl rfl
  · exact (basicQuery_malformed_spec svcOneChild).2.2 rfl "/a".toList []
      "a".toList (by rfl) rfl

/-- HTTP query parameters: Go `url.Values` (a map from parameter name to the
list of supplied values, modelled as an association list). -/
abbrev Values := List (String × List String)

/-- `url.Values.Get`: the first value of the parameter, or `""` when the
parameter is absent or has no values. -/
def valuesGet (params : Values) (name : String) : String :=
  match List.lookup name params with
  | none => ""
  | some [] => ""
  | some (v :: _) => v

/-- Accumulator of `strconv.ParseUint` base 10: fold the decimal digits,
failing on any non-digit character. -/
def decValAux : Nat → List Char → Option Nat
  | acc, [] => some acc
  | acc, c :: cs =>
    if '0' ≤ c ∧ c ≤ '9' then decValAux (acc * 10 + (c.toNat - 48)) cs
    else none

/-- The error string of a `*strconv.NumError` from `ParseInt`. -/
def numErr (s reason : String) : String :=
  "strconv.ParseInt: parsing \x22" ++ s ++ "\x22: " ++ reason

/-- `strconv.ParseInt(s, 10, 64)`: optional sign, then decimal digits, the
result within the int64 range; otherwise the syntax/range error. -/
def goParseInt (s : String) : Except String Int :=
  match s.toList with
  | [] => .error (numErr s "invalid syntax")
  | c :: cs =>
    let x : Bool × List Char :=
      if c = '+' then (false, cs)
      else if c = '-' then (true, cs)
      else (false, c :: cs)
    match x.2 with
    | [] => .error (numErr s "invalid syntax")
    | d :: ds =>
      match decValAux 0 (d :: ds) with
      | none => .error (numErr s "invalid syntax")
      | some n =>
        if x.1 then
          if (n : Int) > 9223372036854775808 then .error (numErr s "value out of range")
          else .ok (-(n : Int))
        else
          if (n : Int) > 9223372036854775807 then .error (numErr s "value out of range")
          else .ok (n : Int)

/-- `server.parseIntParam` (handler.go lines 526-541): absent parameter is
`none` with no error; a parameter given other than exactly once is a 400;
a value that does not parse as an int64 is a 400 carrying the parse
error. -/
def parseIntParam (params : Values) (name : String) : Except Err (Option Int) :=
  match List.lookup name params with
  | none => .ok none
  | some values =>
    match values with
    | [txt] =>
      match goParseInt txt with
      | .error m =>
        .error (mkErr 400 ("Invalid request parameter " ++ name ++ ": " ++ m))
      | .ok i => .ok (some i)
    | _ => .error (mkErr 400 ("Invalid request parameter: " ++ name))

/-- `server.parseTimeParam` (handler.go lines 543-553): the int parameter is
milliseconds since the epoch, scaled to a `time.Time` (nanoseconds). -/
def parseTimeParam (params : Values) (name : String) : Except Err (Option Int) :=
  match parseIntParam params name with
  | .error e => .error e
  | .ok none => .ok none
  | .ok (some i) => .ok (some (i * 1000000))

/-- `Handler.historySizeLimit` (handler.go lines 520-525): the configured
`HistorySizeLimit`, defaulting to 10000 when unset (zero). -/
def historySizeLimit (cfg : Int) : Int :=
  if cfg = 0 then 10000 else cfg

/-- The begin/end switch of `Handler.serveHistory` (handler.go lines
288-306): both present are used as given; neither present defaults to the
last 24 hours ending now; exactly one present is a 400 naming the missing
parameter. -/
def resolveRange (now : Int) : Option Int → Option Int → Except Err (Int × Int)
  | some b, some e => .ok (b, e)
  | none, none => .ok (now - 86400000000000, now)
  | some _, none => .error (mkErr 400 "Missing request parameter: end")
  | none, some _ => .error (mkErr 400 "Missing request parameter: begin")

/-- The limit clamping of `Handler.serveHistory` (handler.go lines 311-320):
a limit above the cap, or no limit at all, becomes the cap. -/
def clampLimit (cfg : Int) : Option Int → Int
  | some l => if l > historySizeLimit cfg then historySizeLimit cfg else l
  | none => historySizeLimit cfg

/-- `encoding.WireHist` (encoding/encoding.go lines 100-104). -/
structure WireHist where
  times : List Int
  values : List Json
  states : List Int

/-- `encoding.HistToWire` (encoding/encoding.go lines 106-117): per-entry
time in milliseconds (`UnixNano() / 1000000`, Go division truncating toward
zero), value and state copied positionally. -/
def histToWire (hist : List PV) : WireHist :=
  ⟨hist.map (fun e => Int.tdiv e.time 1000000),
   hist.map (fun e => e.value),
   hist.map (fun e => e.state)⟩

/-- `Handler.serveHistory` (handler.go lines 278-334).  The backend
`ReadHistory` is the oracle `rh`; `cfg` is the configured
`HistorySizeLimit`, `now` is `time.Now()` in nanoseconds; the JSON
marshalling of the wire history is external and the function returns the
`WireHist` itself. -/
def serveHistory (rh : Pth → Int → Int → Int → Except Err (List PV))
    (cfg now : Int) (p : Pth) (params : Values) : Except Err WireHist :=
  match parseTimeParam params "begin" with
  | .error e => .error e
  | .ok bOpt =>
    match parseTimeParam params "end" with
    | .error e => .error e
    | .ok eOpt =>
      match resolveRange now bOpt eOpt with
      | .error e => .error e
      | .ok be =>
        match parseIntParam params "limit" with
        | .error e => .error e
        | .ok limOpt =>
          match rh p be.1 be.2 (clampLimit cfg limOpt) with
          | .error e => .error e
          | .ok hist => .ok (histToWire hist)

/-- A backend `ReadHistory` that always returns an empty history. -/
def rhEmpty : Pth → Int → Int → Int → Except Err (List PV) :=
  fun _ _ _ _ => .ok []

theorem parseIntParam_absent (params : Values) (name : String)
    (h : List.lookup name params = none) :
    parseIntParam params name = .ok none := by
  simp [parseIntParam, h]

theorem parseTimeParam_absent (params : Values) (name : String)
    (h : List.lookup name params = none) :
    parseTimeParam params name = .ok none := by
  simp [parseTimeParam, parseIntParam_absent params name h]

/-- Counterexample to C5 as stated: a GET on a `~hist` path supplying only
a malformed `limit` parameter has neither `begin` nor `end` supplied, yet
`serveHistory` does not invoke `ReadHistory` with the default 24-hour
range (which here would succeed with an empty history) but fails with 400
on the `limit` parse; likewise the claimed clamp-without-error behaviour
for the `limit` parameter is conditional on the other parameters. -/
theorem serveHistory_limit_cex :
    List.lookup "begin" ([("limit", ["x"])] : Values) = none ∧
    List.lookup "end" ([("limit", ["x"])] : Values) = none ∧
    serveHistory rhEmpty 0 0 "/dev".toList [("limit", ["x"])] =
      .error (mkErr 400
        "Invalid request parameter limit: strconv.ParseInt: parsing \x22x\x22: invalid syntax") ∧
    Except.map histToWire
      (rhEmpty "/dev".toList (0 - 86400000000000) 0 (historySizeLimit 0)) =
      .ok (histToWire []) :=
  ⟨rfl, rfl, rfl, rfl⟩

/-- C5 (amended): for a GET on a `~hist` path whose supplied parameters are
all well-formed, (1) with neither `begin` nor `end` supplied, `ReadHistory`
is invoked with begin = now minus 24 hours, end = now and the parsed limit
clamped; (2) the clamped limit equals the configured cap (default 10000)
exactly when the `limit` parameter is absent or exceeds the cap, and the
clamping itself produces no error; (3) with both `begin` and `end`
supplied they are passed through (in milliseconds scaled to nanoseconds);
(4)/(5) with exactly one of `begin`/`end` supplied (and that one
well-formed), the request fails with 400 naming the missing parameter. -/
theorem serveHistory_spec (rh : Pth → Int → Int → Int → Except Err (List PV))
    (cfg now : Int) (p : Pth) :
    (∀ params limOpt,
      List.lookup "begin" params = none →
      List.lookup "end" params = none →
      parseIntParam params "limit" = .ok limOpt →
      serveHistory rh cfg now p params =
        Except.map histToWire
          (rh p (now - 86400000000000) now (clampLimit cfg limOpt))) ∧
    (∀ limOpt, (limOpt = none ∨ ∃ l, limOpt = some l ∧ historySizeLimit cfg < l) →
      clampLimit cfg limOpt = historySizeLimit cfg) ∧
    (∀ params b e limOpt,
      parseTimeParam params "begin" = .ok (some b) →
      parseTimeParam params "end" = .ok (some e) →
      parseIntParam params "limit" = .ok limOpt →
      serveHistory rh cfg now p params =
        Except.map histToWire (rh p b e (clampLimit cfg limOpt))) ∧
    (∀ params b,
      parseTimeParam params "begin" = .ok (some b) →
      List.lookup "end" params = none →
      serveHistory rh cfg now p params =
        .error (mkErr 400 "Missing request parameter: end")) ∧
    (∀ params e,
      List.lookup "begin" params = none →
      parseTimeParam params "end" = .ok (some e) →
      serveHistory rh cfg now p params =
        .error (mkErr 400 "Missing request parameter: begin")) := by
  refine ⟨?_, ?_, ?_, ?_, ?_⟩
  · intro params limOpt hb he hl
    simp [serveHistory, parseTimeParam_absent params "begin" hb,
      parseTimeParam_absent params "end" he, hl, resolveRange]
    cases hr : rh p (now - 86400000000000) now (clampLimit cfg limOpt) <;>
      simp [hr, Except.map]
  · intro limOpt h
    rcases h with h | ⟨l, rfl, hl⟩
    · rw [h]; rfl
    · simp [clampLimit, hl]
  · intro params b e limOpt hb he hl
    simp [serveHistory, hb, he, hl, resolveRange]
    cases hr : rh p b e (clampLimit cfg limOpt) <;> simp [hr, Except.map]
  · intro params b hb he
    simp [serveHistory, hb, parseTimeParam_absent params "end" he, resolveRange]
  · intro params e hb he
    simp [serveHistory, parseTimeParam_absent params "begin" hb, he, resolveRange]

/-- Witness for the amended C5 at concrete parameter lists against the
empty-history backend. -/
theorem serveHistory_spec_witness :
    (serveHistory rhEmpty 0 5 "/d".toList [("limit", ["20000"])] =
      Except.map histToWire
        (rhEmpty "/d".toList (5 - 86400000000000) 5 (clampLimit 0 (some 20000)))) ∧
    clampLimit 0 (some 20000) = historySizeLimit 0 ∧
    (serveHistory rhEmpty 0 5 "/d".toList [("begin", ["7"]), ("end", ["9"])] =
      Except.map histToWire
        (rhEmpty "/d".toList 7000000 9000000 (clampLimit 0 none))) ∧
    (serveHistory rhEmpty 0 5 "/d".toList [("begin", ["7"])] =
      .error (mkErr 400 "Missing request parameter: end")) ∧
    (serveHistory rhEmpty 0 5 "/d".toList [("end", ["7"])] =
      .error (mkErr 400 "Missing request parameter: begin")) := by
  refine ⟨?_, ?_, ?_, ?_, ?_⟩
  · exact (serveHistory_spec rhEmpty 0 5 "/d".toList).1
      [("limit", ["20000"])] (some 20000) rfl rfl rfl
  · exact (serveHistory_spec rhEmpty 0 5 "/d".toList).2.1
      (some 20000) (Or.inr ⟨20000, rfl, by decide⟩)
  · exact (serveHistory_spec rhEmpty 0 5 "/d".toList).2.2.1
      [("begin", ["7"]), ("end", ["9"])] 7000000 9000000 none rfl rfl rfl
  · exact (serveHistory_spec rhEmpty 0 5 "/d".toList).2.2.2.1
      [("begin", ["7"])] 7000000 rfl rfl
  · exact (serveHistory_spec rhEmpty 0 5 "/d".toList).2.2.2.2
      [("end", ["7"])] 7000000 rfl rfl

/-- `Handler.servePV` (handler.go lines 247-265): read the PV at `p` via
the oracle `rpv` (the backend `ReadPV`), propagate a service error; format
`simple` renders `fmt.Sprint` of the value as text, otherwise the wire PV
is marshalled as JSON.  `marshal` and `sprint` are `encoding/json` /
`fmt` stdlib oracles (on wire PVs of this model marshalling cannot fail);
the result pairs the response body with its content type. -/
def servePV (rpv : Pth → PV × Option Err) (marshal : WirePV → String)
    (sprint : Json → String) (p : Pth) (format : String) :
    Except Err (String × String) :=
  match (rpv p).2 with
  | some e => .error e
  | none =>
    if format = "simple" then
      .ok (sprint (rpv p).1.value, "text/plain; charset=utf-8")
    else
      .ok (marshal (pvToWire (rpv p).1), "application/json")

/-- `Handler.serveSetPV` (handler.go lines 267-276): decode the payload via
`BytesToPV` (failing with 400), then write through the oracle `wpv` (the
backend `WritePV`). -/
def serveSetPV (wpv : Pth → PV → Option Err)
    (strictDec : String → Except String (WirePV × String))
    (unmarshal : String → Except String Json) (now : Int)
    (p : Pth) (payload : String) (fuzzy : Bool) : Option Err :=
  match bytesToPV strictDec unmarshal payload fuzzy now with
  | .error m => some (mkErr 400 ("Conversion of JSON to PV failed: " ++ m))
  | .ok pv => wpv p pv

/-- Outcome of the `~pv` dispatch arm of `Handler.ServeHTTP`: a successful
response body with its content type, a service error (sent with the
error's code further down in `ServeHTTP`), or an immediate HTTP error
response (the 405 of an unsupported method). -/
inductive HResp where
  | ok (respBytes contentType : String)
  | svcError (e : Err)
  | httpError (code : Int) (msg : String)

/-- The `case veap.PVMarker` arm of `Handler.ServeHTTP` (handler.go lines
104-124), reached when `path.Base(fullPath)` is `~pv`: a GET with a
non-empty `writepv` query parameter writes that value (fuzzily decoded) to
the parent path; any other GET reads the parent path, formatted per the
`format` query parameter; PUT writes the request body strictly decoded;
other methods get a 405. -/
def servePVCase (rpv : Pth → PV × Option Err) (wpv : Pth → PV → Option Err)
    (strictDec : String → Except String (WirePV × String))
    (unmarshal : String → Except String Json) (marshal : WirePV → String)
    (sprint : Json → String) (now : Int) (method : String) (fullPath : Pth)
    (qvs : Values) (reqBytes : String) : HResp :=
  if method = "GET" then
    if valuesGet qvs "writepv" ≠ "" then
      match serveSetPV wpv strictDec unmarshal now (pathDir fullPath)
          (valuesGet qvs "writepv") true with
      | some e => .svcError e
      | none => .ok "" "application/json"
    else
      match servePV rpv marshal sprint (pathDir fullPath)
          (valuesGet qvs "format") with
      | .error e => .svcError e
      | .ok bc => .ok bc.1 bc.2
  else if method = "PUT" then
    match serveSetPV wpv strictDec unmarshal now (pathDir fullPath)
        reqBytes false with
    | some e => .svcError e
    | none => .ok "" "application/json"
  else
    .httpError 405 ("Method " ++ method ++ " not allowed for PV " ++
      fullPath.asString)

theorem bytesToPV_fuzzy_ok (sd : String → Except String (WirePV × String))
    (um : String → Except String Json) (payload : String) (now : Int) :
    ∃ pv, bytesToPV sd um payload true now = .ok pv := by
  unfold bytesToPV
  cases hsd : sd payload with
  | ok wr =>
    obtain ⟨w, rest⟩ := wr
    by_cases htrim : trimSpace rest.toList = []
    · have h2 : trimSpace rest.data = [] := htrim
      exact ⟨⟨if w.time = 0 then now else w.time * 1000000, w.value, w.state⟩,
        by simp [h2]⟩
    · have h2 : ¬trimSpace rest.data = [] := htrim
      cases hum : um payload with
      | ok v => exact ⟨⟨now, v, 0⟩, by simp [h2]⟩
      | error e => exact ⟨⟨now, Json.str payload, 0⟩, by simp [h2]⟩
  | error e =>
    cases hum : um payload with
    | ok v => exact ⟨⟨now, v, 0⟩, by simp⟩
    | error e2 => exact ⟨⟨now, Json.str payload, 0⟩, by simp⟩

/-- Concrete oracles for the C8 counterexample and witness: a backend whose
every `ReadPV` yields the PV `(1ms, 7, 0)` and whose every `WritePV` fails
with a recognizable error; a strict decoder and an unmarshaller that
always fail (so fuzzy decoding falls back to the raw string); constant
marshalling and printing. -/
def rpvC : Pth → PV × Option Err := fun _ => (⟨1000000, Json.num 7, 0⟩, none)

/-- See `rpvC`. -/
def wpvC : Pth → PV → Option Err := fun _ _ => some (mkErr 599 "WritePV invoked")

/-- See `rpvC`. -/
def sdC : String → Except String (WirePV × String) := fun _ => .error "EOF"

/-- See `rpvC`. -/
def umC : String → Except String Json := fun _ => .error "invalid JSON"

/-- See `rpvC`. -/
def mC : WirePV → String := fun _ => "json-bytes"

/-- See `rpvC`. -/
def spC : Json → String := fun _ => "7"

/-- Counterexample to C8 as stated: with the `writepv` query parameter
PRESENT but bearing an empty value, a GET on `/x/~pv` takes the ReadPV
branch (the code tests `wpv != ""`, not presence) and returns the
JSON-formatted PV read from the parent path; the WritePV branch, had it
been taken as the claim requires for every present `writepv`, would have
surfaced the backend write error instead. -/
theorem servePVCase_writepv_cex :
    pathBase "/x/~pv".toList = "~pv".toList ∧
    servePVCase rpvC wpvC sdC umC mC spC 0 "GET" "/x/~pv".toList
      [("writepv", [""])] "" = HResp.ok "json-bytes" "application/json" ∧
    serveSetPV wpvC sdC umC 0 (pathDir "/x/~pv".toList) "" true =
      some (mkErr 599 "WritePV invoked") :=
  ⟨rfl, rfl, rfl⟩

/-- C8 (amended): for a GET request whose last path segment is `~pv`, if
the `writepv` query parameter is present WITH A NON-EMPTY VALUE, the
handler decodes that value as a PV in fuzzy mode (which always succeeds)
and performs `WritePV` of it on the parent path; otherwise (absent or
empty `writepv`) it performs `ReadPV` on the parent path and formats the
result per the `format` query parameter: a service error is propagated,
format `simple` renders the bare value as text, any other format renders
the wire PV as JSON. -/
theorem servePVCase_spec (rpv : Pth → PV × Option Err)
    (wpv : Pth → PV → Option Err)
    (sd : String → Except String (WirePV × String))
    (um : String → Except String Json) (m : WirePV → String)
    (sp : Json → String) (now : Int) (fullPath : Pth) (qvs : Values)
    (reqBytes : String)
    (hbase : pathBase fullPath = "~pv".toList) :
    ((valuesGet qvs "writepv" ≠ "") →
      ∃ pv, bytesToPV sd um (valuesGet qvs "writepv") true now = .ok pv ∧
        servePVCase rpv wpv sd um m sp now "GET" fullPath qvs reqBytes =
          (match wpv (pathDir fullPath) pv with
           | some e => HResp.svcError e
           | none => HResp.ok "" "application/json")) ∧
    ((valuesGet qvs "writepv" = "") →
      servePVCase rpv wpv sd um m sp now "GET" fullPath qvs reqBytes =
        (match (rpv (pathDir fullPath)).2 with
         | some e => HResp.svcError e
         | none =>
           if valuesGet qvs "format" = "simple" then
             HResp.ok (sp (rpv (pathDir fullPath)).1.value)
               "text/plain; charset=utf-8"
           else
             HResp.ok (m (pvToWire (rpv (pathDir fullPath)).1))
               "application/json")) := by
  constructor
  · intro hne
    obtain ⟨pv, hpv⟩ := bytesToPV_fuzzy_ok sd um (valuesGet qvs "writepv") now
    refine ⟨pv, hpv, ?_⟩
    unfold servePVCase
    rw [if_pos (show ("GET" : String) = "GET" from rfl), if_pos hne]
    unfold serveSetPV
    rw [hpv]
  · intro hz
    unfold servePVCase
    rw [if_pos (show ("GET" : String) = "GET" from rfl),
      if_neg (fun hcon => hcon hz)]
    unfold servePV
    cases hr : (rpv (pathDir fullPath)).2 with
    | some e => rfl
    | none =>
      by_cases hf : valuesGet qvs "format" = "simple"
      · rw [if_pos hf, if_pos hf]
      · rw [if_neg hf, if_neg hf]

/-- Witness for the amended C8: on `/x/~pv` a GET with `writepv=5` performs
the (failing) backend write, and a GET with `format=simple` returns the
printed value read from `/x` as text. -/
theorem servePVCase_spec_witness :
    (servePVCase rpvC wpvC sdC umC mC spC 0 "GET" "/x/~pv".toList
      [("writepv", ["5"])] "" = HResp.svcError (mkErr 599 "WritePV invoked")) ∧
    (servePVCase rpvC wpvC sdC umC mC spC 0 "GET" "/x/~pv".toList
      [("format", ["simple"])] "" = HResp.ok "7" "text/plain; charset=utf-8") := by
  constructor
  · obtain ⟨pv, hpv, heq⟩ :=
      (servePVCase_spec rpvC wpvC sdC umC mC spC 0 "/x/~pv".toList
        [("writepv", ["5"])] "" rfl).1 (by decide)
    rw [heq]
    rfl
  · exact ((servePVCase_spec rpvC wpvC sdC umC mC spC 0 "/x/~pv".toList
      [("format", ["simple"])] "" rfl).2 rfl).trans rfl

end Veap
